import Mathlib

/- Verification of the GPS-Lap-Tracker core (modules myPyGPX and laps).

   Modelling conventions.
   Numbers: Python floats are modelled as exact rationals.
   Time: the Time class (calendar fields, myPyGPX.py 60-114) is modelled as an
   absolute timestamp in rational seconds, so that
   Time.timeInterval(self, other) is the subtraction self - other, exactly as
   datetime subtraction behaves on the encoded fields.
   Point.distance (myPyGPX.py 153-173) reads only the two points' latitude and
   longitude and combines them through trigonometric polynomials; since the
   trigonometry is transcendental it is kept abstract here as a parameter
   d : GeoDist on coordinate pairs, and every theorem holds for an arbitrary d,
   in particular for the source's equirectangular formula.
   Where the Python source raises an exception (indexing an empty list,
   arithmetic on an unset None attribute, division by a zero time interval)
   the embedding returns a harmless default value; the theorems' hypotheses
   keep all statements inside the exception-free domain of the source. -/

structure LatLon where
  lat : ℚ
  lon : ℚ
deriving DecidableEq, Inhabited

/-- TrackPoint (myPyGPX.py 176-239): coordinates, elevation and timestamp as
read from the file, plus the three derived attributes which start unset. -/
structure TrackPoint where
  lat : ℚ
  lon : ℚ
  elevation : ℚ
  time : ℚ
  accumulatedDistance : Option ℚ
  accumulatedElevation : Option ℚ
  speed : Option ℚ
deriving DecidableEq, Inhabited

def TrackPoint.pos (p : TrackPoint) : LatLon := ⟨p.lat, p.lon⟩

/-- Abstraction of Point.distance: a function of the two coordinate pairs. -/
abbrev GeoDist := LatLon → LatLon → ℚ

/-- A track is its trackSegList: a list of segments, each a list of points. -/
abbrev Track := List (List TrackPoint)

/-- Generic walker shared by the derived-attribute passes of class Track
(myPyGPX.py 406-512): visit every point of a segment in order, updating it
from the previous (already updated) point, which is passed along; none marks
the very first point of the whole track. -/
def passFollow (upd : Option TrackPoint → TrackPoint → TrackPoint) :
    Option TrackPoint → List TrackPoint → List TrackPoint
  | _, [] => []
  | prev, p :: rest =>
    let q := upd prev p
    q :: passFollow upd (some q) rest

/-- Segment loop of the derived-attribute passes: the cursor
lastPointPrevTrkSeg carries the last updated point of the previous segment
across the segment boundary (myPyGPX.py 435, 473, 507). -/
def passSegs (upd : Option TrackPoint → TrackPoint → TrackPoint) :
    Option TrackPoint → List (List TrackPoint) → List (List TrackPoint)
  | _, [] => []
  | prev, seg :: rest =>
    let seg2 := passFollow upd prev seg
    seg2 :: passSegs upd seg2.getLast? rest

/-- The previous-point cursor as it stands after walking a list of points:
the last updated point when the list is non-empty, the incoming cursor
otherwise. -/
def carryAfter (upd : Option TrackPoint → TrackPoint → TrackPoint) :
    Option TrackPoint → List TrackPoint → Option TrackPoint
  | prev, [] => prev
  | prev, p :: rest => carryAfter upd (some (upd prev p)) rest

/-- Accumulated-distance update step (myPyGPX.py 406-435): the first point of
the track gets 0; every later point gets its predecessor's accumulated
distance plus the geodetic distance to that predecessor, the predecessor
being the true previous point in flattened order. -/
def accUpd (d : GeoDist) : Option TrackPoint → TrackPoint → TrackPoint
  | none, p => { p with accumulatedDistance := some 0 }
  | some q, p =>
    { p with accumulatedDistance :=
        q.accumulatedDistance.map (fun r => r + d p.pos q.pos) }

/-- Track._computeAccDistanceForEachTrackPoint (myPyGPX.py 406-435). -/
def computeAccDistanceForEachTrackPoint (d : GeoDist) (t : Track) : Track :=
  passSegs (accUpd d) none t

/-- Speed update step (myPyGPX.py 488-507): distance to the true predecessor
divided by the time interval to it; the first point of the track is left
unset here and fixed afterwards. -/
def speedUpd (d : GeoDist) : Option TrackPoint → TrackPoint → TrackPoint
  | none, p => { p with speed := none }
  | some q, p => { p with speed := some (d p.pos q.pos / (p.time - q.time)) }

/-- Track._computeSpeedForEachTrackPoint (myPyGPX.py 475-512), including the
final corrective step that copies the second point's speed onto the first
point of the first segment (lines 508-512). -/
def computeSpeedForEachTrackPoint (d : GeoDist) (t : Track) : Track :=
  match passSegs (speedUpd d) none t with
  | (p0 :: p1 :: tail) :: rest =>
    ({ p0 with speed := p1.speed } :: p1 :: tail) :: rest
  | other => other

/-- Track.getSerialized (myPyGPX.py 514-531): run the accumulated-distance
pass, then flatten the segments into one list of points. -/
def Track.getSerialized (d : GeoDist) (t : Track) : List TrackPoint :=
  (computeAccDistanceForEachTrackPoint d t).flatten

/-- The point trackSegList[-1].getPointList()[-1] used by totalDistance. -/
def Track.lastPoint (t : Track) : Option TrackPoint :=
  t.getLast? >>= List.getLast?

/-- Track.totalDistance (myPyGPX.py 568-575): the last point's accumulated
distance, recomputing the distance pass first if it is still unset. -/
def Track.totalDistance (d : GeoDist) (t : Track) : ℚ :=
  match Track.lastPoint t with
  | none => 0
  | some p =>
    match p.accumulatedDistance with
    | some r => r
    | none =>
      ((Track.lastPoint (computeAccDistanceForEachTrackPoint d t)).bind
        TrackPoint.accumulatedDistance).getD 0

/-- Track.getStartTime (myPyGPX.py 312-314). -/
def Track.getStartTime (t : Track) : Option ℚ :=
  (t.head? >>= List.head?).map TrackPoint.time

/-- The closure _getX of produceSeries for a time series (myPyGPX.py
354-357): elapsed seconds since the start of the (already updated) track. -/
def produceSeriesXTime (t2 : Track) (p : TrackPoint) : ℚ :=
  p.time - (Track.getStartTime t2).getD 0

/-- The closure _getX of produceSeries for a distance series (myPyGPX.py
358-360). -/
def produceSeriesXDist (p : TrackPoint) : ℚ :=
  p.accumulatedDistance.getD 0

/-- The closure _getY of produceSeries for dataKind pace (myPyGPX.py
362-370): pace clamped to MAXIMUM_PACE = 60 whenever the speed is not above
MINIMUM_SPEED = 100 / (6 * 60). -/
def paceFromSpeed (p : TrackPoint) : ℚ :=
  let speed := p.speed.getD 0
  if 100 / (6 * 60) < speed then 1 / speed * 100 / 6 else 60

/-- The closure _getY of produceSeries for dataKind speed km/h (myPyGPX.py
371-375). -/
def speedKmH (p : TrackPoint) : ℚ :=
  p.speed.getD 0 * 36 / 10

/-- Track.produceSeries (myPyGPX.py 320-384): trigger the passes the request
needs, then map every point, in flattened order, to an (x, y) pair. -/
def Track.produceSeries (d : GeoDist) (arrangeAs dataKind : String) (t : Track) :
    List (ℚ × ℚ) :=
  let t1 :=
    if arrangeAs = "distance series" then
      computeAccDistanceForEachTrackPoint d t
    else t
  let t2 :=
    if dataKind = "pace" ∨ dataKind = "speed km/h" then
      computeSpeedForEachTrackPoint d t1
    else t1
  let getX : TrackPoint → ℚ :=
    if arrangeAs = "time series" then produceSeriesXTime t2
    else produceSeriesXDist
  let getY : TrackPoint → ℚ :=
    if dataKind = "pace" then paceFromSpeed
    else if dataKind = "speed km/h" then speedKmH
    else TrackPoint.elevation
  t2.flatten.map (fun p => (getX p, getY p))

/-- Analyse.filterSeries (myPyGPX.py 613-647): running average over the
y-values; the first nForAverage - 1 outputs average the first i + 1 inputs,
the remaining outputs average the trailing nForAverage inputs. -/
def Analyse.filterSeries (series : List (ℚ × ℚ)) (nForAverage : ℕ) :
    List (ℚ × ℚ) :=
  ((List.range (nForAverage - 1)).map (fun i =>
    ((series.getD i default).1,
      (((List.range (i + 1)).map (fun j => (series.getD j default).2)).sum) /
        ((i : ℚ) + 1))))
  ++ ((List.range' (nForAverage - 1) (series.length - (nForAverage - 1))).map
    (fun i =>
      ((series.getD i default).1,
        (((List.range' (i + 1 - nForAverage) (i + 1 - (i + 1 - nForAverage))).map
          (fun j => (series.getD j default).2)).sum) / (nForAverage : ℚ))))

/-- Python's int() truncation toward zero, as a function on rationals. -/
def pyInt (q : ℚ) : ℤ :=
  if q < 0 then -(Int.floor (-q)) else Int.floor q

/-- Python's round() on a rational: round to the nearest integer, ties going
to the even neighbour. -/
def pyRound (q : ℚ) : ℤ :=
  let f := Int.floor q
  if q - f < 1 / 2 then f
  else if 1 / 2 < q - f then f + 1
  else if f % 2 = 0 then f else f + 1

/-- Zero padding of the seconds field (myPyGPX.py 691-692). -/
def padZero2 (s : String) : String :=
  if s.length = 1 then "0" ++ s else s

/-- Analyse.paceDecimalMinutesToMinSec (myPyGPX.py 672-693). -/
def Analyse.paceDecimalMinutesToMinSec (paceInDecimalMinutes : ℚ) : String :=
  let minutes : ℤ := pyInt paceInDecimalMinutes
  let decimalPart : ℚ := paceInDecimalMinutes - minutes
  let seconds : ℤ := pyRound (decimalPart * 60)
  let carried : ℤ × ℤ :=
    if seconds = 60 then (minutes + 1, 0) else (minutes, seconds)
  toString carried.1 ++ ":" ++ padZero2 (toString carried.2) ++ "/km"

/-- Lap (laps.py 7-60): a Track specialization carrying lapNumber and
startingDistance; the startingDistance mirrors the float handed over by the
caller, which may stem from an unset attribute, hence the Option. -/
structure Lap where
  lapNumber : ℕ
  startingDistance : Option ℚ
  trackSegList : Track
deriving DecidableEq, Inhabited

/-- Lap.__init__ (laps.py 17-38): all supplied points go, in order, into one
single TrackSeg, which becomes the only entry of trackSegList. -/
def Lap.ofPoints (lapNumber : ℕ) (startingDistance : Option ℚ)
    (listOfPoints : List TrackPoint) : Lap :=
  { lapNumber := lapNumber, startingDistance := startingDistance,
    trackSegList := [listOfPoints] }

/-- All points of a lap, in order. -/
def Lap.points (l : Lap) : List TrackPoint := l.trackSegList.flatten

/-- Re-basing of one copied point inside LapExtractor._split (laps.py
200-202): subtract the lap's initial accumulated distance. -/
def shiftPoint (init : Option ℚ) (p : TrackPoint) : TrackPoint :=
  { p with accumulatedDistance :=
      Option.map₂ (fun a b => a - b) p.accumulatedDistance init }

/-- One iteration of the loop body of LapExtractor._split (laps.py 186-208)
for lap number i + 1 with boundary indices a and b: deep copy the slice
serializedTrack[a : b + 1], remember the first copied point's accumulated
distance, re-base every copied point by it and build the lap. -/
def LapExtractor.splitLap (serializedTrack : List TrackPoint) (i a b : ℕ) :
    Lap :=
  let nextListOfPoints := (serializedTrack.drop a).take (b + 1 - a)
  let initialAccumulatedDistance :=
    nextListOfPoints.head?.bind TrackPoint.accumulatedDistance
  Lap.ofPoints (i + 1) initialAccumulatedDistance
    (nextListOfPoints.map (shiftPoint initialAccumulatedDistance))

/-- LapExtractor._split (laps.py 156-209): one lap per consecutive pair of
split indices. -/
def LapExtractor.split (serializedTrack : List TrackPoint)
    (listOfSplitIndices : List ℕ) : List Lap :=
  ((listOfSplitIndices.zip listOfSplitIndices.tail).enum).map
    (fun p => LapExtractor.splitLap serializedTrack p.1 p.2.1 p.2.2)

/-- Accumulated distance stored at index i of the serialized track, as read
by the index-building loops; unset attributes read as 0 where the source
would raise. -/
def accD (pts : List TrackPoint) (i : ℕ) : ℚ :=
  ((pts.getD i default).accumulatedDistance).getD 0

/-- Inner while loop of getAutoLapsByDistance (laps.py 229-234): walk while
lapDistance < autoSplitValue and index < len(serializedTrack), recomputing
lapDistance from the point at index before incrementing index. Fuel bounds
the iteration count; every theorem instantiates it generously enough that it
never runs out on the loop's actual trace. -/
def autoDistInner (pts : List TrackPoint) (autoSplitValue initial : ℚ) :
    ℕ → ℕ → ℚ → ℕ
  | 0, index, _ => index
  | fuel + 1, index, lapDistance =>
    if lapDistance < autoSplitValue ∧ index < pts.length then
      autoDistInner pts autoSplitValue initial fuel (index + 1)
        (accD pts index - initial)
    else index

/-- Outer while loop of getAutoLapsByDistance (laps.py 221-240): start a lap
at index - 1, run the inner walk from lapDistance = 0, append the end of the
lap at the final index - 1. -/
def autoDistOuter (pts : List TrackPoint) (autoSplitValue : ℚ) :
    ℕ → ℕ → List ℕ → List ℕ
  | 0, _, idxs => idxs
  | fuel + 1, index, idxs =>
    if index < pts.length then
      let initial := accD pts (index - 1)
      let index2 := autoDistInner pts autoSplitValue initial pts.length index 0
      autoDistOuter pts autoSplitValue fuel index2 (idxs ++ [index2 - 1])
    else idxs

/-- LapExtractor.getAutoLapsByDistance (laps.py 211-243), acting on the
extractor's serializedTrack. -/
def LapExtractor.getAutoLapsByDistance (autoSplitValue : ℚ)
    (pts : List TrackPoint) : List Lap :=
  LapExtractor.split pts
    (autoDistOuter pts autoSplitValue (pts.length + 1) 1 [0])

/-- Inner while loop of getLapsFromListOfDistanceMarkers (laps.py 303-307):
walk while the total accumulated distance is below the next marker. -/
def distMarkersInner (pts : List TrackPoint) (nextSplitPoint : ℚ) :
    ℕ → ℕ → ℚ → ℕ
  | 0, index, _ => index
  | fuel + 1, index, totalAccDistance =>
    if totalAccDistance < nextSplitPoint ∧ index < pts.length then
      distMarkersInner pts nextSplitPoint fuel (index + 1) (accD pts index)
    else index

/-- Outer while loop of getLapsFromListOfDistanceMarkers (laps.py 296-309);
reading past the end of the marker list yields 0 where the source raises. -/
def distMarkersOuter (pts : List TrackPoint) (listOfMarkers : List ℚ) :
    ℕ → ℕ → ℕ → List ℕ → List ℕ
  | 0, _, _, idxs => idxs
  | fuel + 1, index, markerIndex, idxs =>
    if index < pts.length then
      let nextSplitPoint := listOfMarkers.getD markerIndex 0
      let index2 := distMarkersInner pts nextSplitPoint pts.length index
        (accD pts (index - 1))
      distMarkersOuter pts listOfMarkers fuel index2 (markerIndex + 1)
        (idxs ++ [index2 - 1])
    else idxs

/-- LapExtractor.getLapsFromListOfDistanceMarkers (laps.py 277-312). -/
def LapExtractor.getLapsFromListOfDistanceMarkers (pts : List TrackPoint)
    (listOfMarkers : List ℚ) : List Lap :=
  LapExtractor.split pts
    (distMarkersOuter pts listOfMarkers
      (pts.length + listOfMarkers.length + 1) 1 0 [0])

/-- Scan of Lap.getFastestPace (laps.py 90-98): keep the current best pair,
replacing it only when a strictly smaller y-value appears. -/
def scanFastest : Option (ℚ × ℚ) → List (ℚ × ℚ) → Option (ℚ × ℚ)
  | best, [] => best
  | none, e :: rest => scanFastest (some e) rest
  | some b, e :: rest => scanFastest (some (if e.2 < b.2 then e else b)) rest

/-- Scan of Lap.getSlowestPace (laps.py 129-137): keep the current best pair,
replacing it only when a strictly larger y-value appears. -/
def scanSlowest : Option (ℚ × ℚ) → List (ℚ × ℚ) → Option (ℚ × ℚ)
  | best, [] => best
  | none, e :: rest => scanSlowest (some e) rest
  | some b, e :: rest => scanSlowest (some (if b.2 < e.2 then e else b)) rest

/-- Lap.getFastestPace (laps.py 63-98): produce the lap's pace series
arranged along measureAlong, smooth it, scan for the minimum. -/
def Lap.getFastestPace (d : GeoDist) (nForAverage : ℕ) (measureAlong : String)
    (l : Lap) : Option (ℚ × ℚ) :=
  scanFastest none
    (Analyse.filterSeries
      (Track.produceSeries d (measureAlong ++ " series") "pace" l.trackSegList)
      nForAverage)

/-- Lap.getSlowestPace (laps.py 101-137). -/
def Lap.getSlowestPace (d : GeoDist) (nForAverage : ℕ) (measureAlong : String)
    (l : Lap) : Option (ℚ × ℚ) :=
  scanSlowest none
    (Analyse.filterSeries
      (Track.produceSeries d (measureAlong ++ " series") "pace" l.trackSegList)
      nForAverage)

/- Heap model of LapExtractor._split, for the aliasing guarantees: Python
points are objects on a heap, the serialized reference track is a list of
references into it, deepcopy allocates fresh cells and setAccumulatedDistance
mutates the cell in place. Cells are addressed by their index in the store;
allocation appends at the end. -/

structure PStore where
  pts : List TrackPoint
deriving DecidableEq, Inhabited

/-- A lap holding references to its (freshly copied) points. -/
structure LapRef where
  lapNumber : ℕ
  startingDistance : Option ℚ
  pointIds : List ℕ
deriving DecidableEq, Inhabited

def storeGet (σ : PStore) (a : ℕ) : TrackPoint := σ.pts.getD a default

def storeSet (σ : PStore) (a : ℕ) (p : TrackPoint) : PStore := ⟨σ.pts.set a p⟩

/-- deepcopy of a list of points (laps.py 191-193): allocate a fresh cell per
copied point, preserving order, and return the fresh addresses. -/
def allocCopies (σ : PStore) (ids : List ℕ) : PStore × List ℕ :=
  (⟨σ.pts ++ ids.map (storeGet σ)⟩, List.range' σ.pts.length ids.length)

/-- Heap version of one loop iteration of LapExtractor._split (laps.py
186-208): deep copy the slice of references, then mutate only the fresh
cells while re-basing their accumulated distance. -/
def splitLapRef (σ : PStore) (refIds : List ℕ) (i a b : ℕ) :
    PStore × LapRef :=
  let slice := (refIds.drop a).take (b + 1 - a)
  let alloc := allocCopies σ slice
  let newIds := alloc.2
  let init : Option ℚ :=
    match newIds with
    | [] => none
    | j :: _ => (storeGet alloc.1 j).accumulatedDistance
  let σ2 := newIds.foldl
    (fun s j => storeSet s j (shiftPoint init (storeGet s j))) alloc.1
  (σ2, ⟨i + 1, init, newIds⟩)

/-- Heap version of LapExtractor._split (laps.py 156-209). -/
def LapExtractor.splitRef (σ : PStore) (refIds : List ℕ) (idxs : List ℕ) :
    PStore × List LapRef :=
  ((idxs.zip idxs.tail).enum).foldl
    (fun acc p =>
      let r := splitLapRef acc.1 refIds p.1 p.2.1 p.2.2
      (r.1, acc.2 ++ [r.2]))
    (σ, [])

/-- Unit-latitude metric used for the concrete runs: the distance between
two coordinate pairs is the absolute latitude difference. -/
def dLat : GeoDist := fun a b => |a.lat - b.lat|

/-- A raw track point at latitude lat and time t, as the parser delivers it:
longitude and elevation 0, derived attributes unset. -/
def mkPt (lat t : ℚ) : TrackPoint :=
  { lat := lat, lon := 0, elevation := 0, time := t,
    accumulatedDistance := none, accumulatedElevation := none, speed := none }

/-- Concrete lap whose smoothed pace series has its minimum at the two
locations 0 and 1 and its maximum at the two locations 3/2 and 2. -/
def lapTie : Lap :=
  Lap.ofPoints 1 (some 0) [mkPt 0 0, mkPt 1 1, mkPt (3 / 2) 2, mkPt 2 3]

/-- Concrete single-segment reference track with accumulated distances
0, 100, 200 under the unit-latitude metric. -/
def trackGaps : Track := [[mkPt 0 0, mkPt 100 1, mkPt 200 2]]

/-- Agreement of a copied point with its reference point on every attribute
except the re-based accumulated distance. -/
def samePoint (q p : TrackPoint) : Prop :=
  q.lat = p.lat ∧ q.lon = p.lon ∧ q.elevation = p.elevation ∧
  q.time = p.time ∧ q.speed = p.speed

/-- Concrete two-segment track, to exercise the carry across the segment
boundary: under dLat the gap from (lat 1, t 1) to (lat 3, t 2) has distance 2
covered in 1 second. -/
def trackTwoSegs : Track := [[mkPt 0 0, mkPt 1 1], [mkPt 3 2, mkPt 6 3]]

/-- C10: every Lap consists of exactly one segment: Lap.__init__ puts all
supplied points, in order, into a single TrackSeg, so laps produced through
LapExtractor._split always have a trackSegList of length 1. -/
theorem lap_single_segment :
    (∀ (n : ℕ) (sd : Option ℚ) (pts : List TrackPoint),
      (Lap.ofPoints n sd pts).trackSegList = [pts]) ∧
    (∀ (serialized : List TrackPoint) (idxs : List ℕ) (lap : Lap),
      lap ∈ LapExtractor.split serialized idxs →
        lap.trackSegList.length = 1) := by
  constructor
  · intro n sd pts
    rfl
  · intro s idxs lap h
    simp only [LapExtractor.split, List.mem_map] at h
    obtain ⟨p, -, rfl⟩ := h
    rfl

theorem lap_single_segment_witness :
    (Lap.ofPoints 1 none [mkPt 0 0]).trackSegList = [[mkPt 0 0]] ∧
    (LapExtractor.splitLap [mkPt 0 0, mkPt 0 1] 0 0 1).trackSegList.length
      = 1 :=
  ⟨lap_single_segment.1 1 none [mkPt 0 0],
   lap_single_segment.2 [mkPt 0 0, mkPt 0 1] [0, 1]
     (LapExtractor.splitLap [mkPt 0 0, mkPt 0 1] 0 0 1)
     (by with_unfolding_all decide)⟩

/-- C3 is refuted on the code: on lapTie the smoothed pace series is
[(0, 50/3), (1, 50/3), (3/2, 100/3), (2, 100/3)], so the minimum 50/3 is
attained at the two distinct locations 0 and 1 and the maximum 100/3 at the
two distinct locations 3/2 and 2; getFastestPace returns the FIRST minimal
location 0 and getSlowestPace the FIRST maximal location 3/2, although the
claim (and the methods' own docstrings) require the last one. -/
theorem getFastestPace_getSlowestPace_return_first_tied_location :
    Lap.getFastestPace dLat 1 "distance" lapTie = some (0, 50 / 3) ∧
    Lap.getSlowestPace dLat 1 "distance" lapTie = some (3 / 2, 100 / 3) ∧
    Analyse.filterSeries
      (Track.produceSeries dLat "distance series" "pace" lapTie.trackSegList)
      1 = [(0, 50 / 3), (1, 50 / 3), (3 / 2, 100 / 3), (2, 100 / 3)] ∧
    (0 : ℚ) ≠ 1 ∧ (3 / 2 : ℚ) ≠ 2 := by
  with_unfolding_all decide

/-- C4 is refuted on the code: trackGaps has total distance 200 and the
marker list [50, 60, 250] satisfies the documented precondition
(non-negative, increasing, last marker at least the total distance), yet
getLapsFromListOfDistanceMarkers produces a middle lap with exactly ONE
track point, because two consecutive markers fall between the same pair of
track points and the split-index walk then repeats a boundary index. -/
theorem distanceMarkers_produce_one_point_lap :
    ((0 : ℚ) ≤ 50 ∧ (50 : ℚ) < 60 ∧ (60 : ℚ) < 250) ∧
    Track.totalDistance dLat
      (computeAccDistanceForEachTrackPoint dLat trackGaps) = 200 ∧
    ((LapExtractor.getLapsFromListOfDistanceMarkers
      (Track.getSerialized dLat trackGaps) [50, 60, 250]).map
        (fun l => (Lap.points l).length)) = [2, 1, 2] := by
  with_unfolding_all decide

theorem storeSet_getElem?_ne (σ : PStore) (a j : ℕ) (p : TrackPoint)
    (h : a ≠ j) : (storeSet σ a p).pts[j]? = σ.pts[j]? := by
  simp [storeSet, List.getElem?_set_ne h]

theorem setFold_getElem? (f : PStore → ℕ → TrackPoint) (j : ℕ) :
    ∀ (ids : List ℕ) (σ : PStore), (∀ id ∈ ids, id ≠ j) →
      (ids.foldl (fun s i => storeSet s i (f s i)) σ).pts[j]? = σ.pts[j]?
  | [], _, _ => rfl
  | id :: rest, σ, h => by
    simp only [List.foldl_cons]
    rw [setFold_getElem? f j rest _
      (fun x hx => h x (List.mem_cons_of_mem _ hx))]
    exact storeSet_getElem?_ne σ id j _ (h id (List.mem_cons_self _ _))

theorem setFold_length (f : PStore → ℕ → TrackPoint) :
    ∀ (ids : List ℕ) (σ : PStore),
      (ids.foldl (fun s i => storeSet s i (f s i)) σ).pts.length =
        σ.pts.length
  | [], _ => rfl
  | id :: rest, σ => by
    simp only [List.foldl_cons]
    rw [setFold_length f rest]
    simp [storeSet]

theorem splitLapRef_frame (σ : PStore) (refIds : List ℕ) (i a b j : ℕ)
    (hj : j < σ.pts.length) :
    (splitLapRef σ refIds i a b).1.pts[j]? = σ.pts[j]? ∧
    σ.pts.length ≤ (splitLapRef σ refIds i a b).1.pts.length := by
  unfold splitLapRef allocCopies
  simp only
  constructor
  · rw [setFold_getElem?]
    · exact List.getElem?_append_left hj
    · intro id hid
      rw [List.mem_range'_1] at hid
      omega
  · rw [setFold_length]
    simp only [List.length_append]
    omega

theorem splitRefFold_frame (refIds : List ℕ) (j : ℕ) :
    ∀ (l : List (ℕ × ℕ × ℕ)) (σ : PStore) (laps : List LapRef),
      j < σ.pts.length →
      ((l.foldl (fun acc p =>
          ((splitLapRef acc.1 refIds p.1 p.2.1 p.2.2).1,
           acc.2 ++ [(splitLapRef acc.1 refIds p.1 p.2.1 p.2.2).2]))
        (σ, laps)).1.pts[j]? = σ.pts[j]?)
  | [], _, _, _ => rfl
  | p :: rest, σ, laps, hj => by
    simp only [List.foldl_cons]
    have h1 := splitLapRef_frame σ refIds p.1 p.2.1 p.2.2 j hj
    rw [splitRefFold_frame refIds j rest _ _ (lt_of_lt_of_le hj h1.2)]
    exact h1.1

/-- C8: LapExtractor._split never changes the reference track: in the heap
model, after splitting along any index list every cell holding a reference
point is exactly what it was before the call, because the re-basing of
accumulated distance mutates only the freshly allocated deep copies. -/
theorem splitRef_preserves_reference (σ : PStore) (refIds idxs : List ℕ)
    (j : ℕ) (hj : j < σ.pts.length) :
    (LapExtractor.splitRef σ refIds idxs).1.pts[j]? = σ.pts[j]? := by
  unfold LapExtractor.splitRef
  exact splitRefFold_frame refIds j ((idxs.zip idxs.tail).enum) σ [] hj

theorem splitRef_preserves_reference_witness :
    (0 : ℕ) < (PStore.mk (Track.getSerialized dLat trackGaps)).pts.length ∧
    (LapExtractor.splitRef (PStore.mk (Track.getSerialized dLat trackGaps))
      [0, 1, 2] [0, 1, 2]).1.pts[0]? =
      (PStore.mk (Track.getSerialized dLat trackGaps)).pts[0]? :=
  ⟨by with_unfolding_all decide,
   splitRef_preserves_reference (PStore.mk (Track.getSerialized dLat trackGaps))
     [0, 1, 2] [0, 1, 2] 0 (by with_unfolding_all decide)⟩

theorem pyInt_eq_floor (p : ℚ) (hp : 0 ≤ p) : pyInt p = Int.floor p := by
  rw [pyInt, if_neg (not_lt.2 hp)]

/-- C9: for non-negative decimal pace the formatter produces M:SS/km with
M = floor(p) plus the carry, SS the fractional part times 60 rounded to the
nearest whole second (ties to even, Python's round) and zero-padded, the
carry turning 60 seconds into 00 with one more minute; in particular
4.5 formats as 4:30/km and 4.999 as 5:00/km. -/
theorem paceDecimalMinutesToMinSec_spec (p : ℚ) (hp : 0 ≤ p) :
    (pyRound ((p - Int.floor p) * 60) = 60 →
      Analyse.paceDecimalMinutesToMinSec p =
        toString (Int.floor p + 1) ++ ":" ++ "00" ++ "/km") ∧
    (pyRound ((p - Int.floor p) * 60) ≠ 60 →
      Analyse.paceDecimalMinutesToMinSec p =
        toString (Int.floor p) ++ ":" ++
          padZero2 (toString (pyRound ((p - Int.floor p) * 60))) ++ "/km") ∧
    Analyse.paceDecimalMinutesToMinSec (9 / 2) = "4:30/km" ∧
    Analyse.paceDecimalMinutesToMinSec (4999 / 1000) = "5:00/km" := by
  have hpad : padZero2 (toString (0 : ℤ)) = "00" := by
    with_unfolding_all decide
  refine ⟨?_, ?_, by with_unfolding_all decide, by with_unfolding_all decide⟩
  · intro h60
    simp only [Analyse.paceDecimalMinutesToMinSec, pyInt_eq_floor p hp, h60,
      if_true, eq_self_iff_true]
    rw [hpad]
  · intro h60
    simp only [Analyse.paceDecimalMinutesToMinSec, pyInt_eq_floor p hp,
      if_neg h60]

theorem paceDecimalMinutesToMinSec_spec_witness :
    (0 : ℚ) ≤ 9 / 2 ∧
    Analyse.paceDecimalMinutesToMinSec (9 / 2) = "4:30/km" :=
  ⟨by norm_num, (paceDecimalMinutesToMinSec_spec (9 / 2) (by norm_num)).2.2.1⟩

theorem range_map_getD_snd (s : List (ℚ × ℚ)) (k : ℕ) (hk : k ≤ s.length) :
    (List.range k).map (fun j => (s.getD j default).2) =
      (s.take k).map Prod.snd := by
  apply List.ext_getElem?
  intro j
  by_cases hj : j < k
  · have hv : s[j]? = some s[j] :=
      List.getElem?_eq_getElem (lt_of_lt_of_le hj hk)
    rw [List.getElem?_map, List.getElem?_range hj, List.getElem?_map,
      List.getElem?_take_of_lt hj, hv]
    simp [List.getD_eq_getElem?_getD, hv]
  · rw [List.getElem?_eq_none, List.getElem?_eq_none]
    · simp [List.length_take]
      omega
    · simp
      omega

theorem range'_map_getD_snd (s : List (ℚ × ℚ)) (a k : ℕ)
    (h : a + k ≤ s.length) :
    (List.range' a k).map (fun j => (s.getD j default).2) =
      ((s.drop a).take k).map Prod.snd := by
  apply List.ext_getElem?
  intro j
  by_cases hj : j < k
  · have hv : s[a + j]? = some s[a + j] :=
      List.getElem?_eq_getElem (show a + j < s.length by omega)
    rw [List.getElem?_map, List.getElem?_range' a 1 hj, List.getElem?_map,
      List.getElem?_take_of_lt hj, List.getElem?_drop,
      show a + 1 * j = a + j by ring, hv]
    simp [List.getD_eq_getElem?_getD, hv]
  · rw [List.getElem?_eq_none, List.getElem?_eq_none]
    · simp [List.length_take, List.length_drop]
      omega
    · simp
      omega

theorem filterSeries_length (s : List (ℚ × ℚ)) (n : ℕ)
    (h : n - 1 ≤ s.length) : (Analyse.filterSeries s n).length = s.length := by
  unfold Analyse.filterSeries
  simp only [List.length_append, List.length_map, List.length_range,
    List.length_range']
  omega

theorem filterSeries_getElem?_warm (s : List (ℚ × ℚ)) (n i : ℕ)
    (hi : i < n - 1) :
    (Analyse.filterSeries s n)[i]? = some ((s.getD i default).1,
      (((List.range (i + 1)).map (fun j => (s.getD j default).2)).sum) /
        ((i : ℚ) + 1)) := by
  unfold Analyse.filterSeries
  rw [List.getElem?_append]
  simp only [List.length_map, List.length_range]
  rw [if_pos hi, List.getElem?_map, List.getElem?_range hi]
  rfl

theorem filterSeries_getElem?_tail (s : List (ℚ × ℚ)) (n i : ℕ)
    (h1 : n - 1 ≤ i) (h2 : i < s.length) :
    (Analyse.filterSeries s n)[i]? = some ((s.getD i default).1,
      (((List.range' (i + 1 - n) (i + 1 - (i + 1 - n))).map
        (fun j => (s.getD j default).2)).sum) / (n : ℚ)) := by
  unfold Analyse.filterSeries
  rw [List.getElem?_append]
  simp only [List.length_map, List.length_range, List.length_range']
  rw [if_neg (by omega), List.getElem?_map,
    List.getElem?_range' (n - 1) 1 (by omega)]
  rw [show n - 1 + 1 * (i - (n - 1)) = i by omega]
  rfl

/-- C6: filterSeries keeps the length and every x-value, the y-value at
index i below nForAverage - 1 is the mean of the first i + 1 input y-values,
the y-value at any later index i is the mean of the nForAverage input
y-values ending at i, and nForAverage = 1 gives back the series. -/
theorem filterSeries_spec (s : List (ℚ × ℚ)) (n : ℕ) (h1 : 1 ≤ n)
    (h2 : n ≤ s.length) :
    (Analyse.filterSeries s n).length = s.length ∧
    (∀ i, i < s.length →
      ((Analyse.filterSeries s n)[i]?).map Prod.fst = (s[i]?).map Prod.fst) ∧
    (∀ i, i < n - 1 →
      ((Analyse.filterSeries s n)[i]?).map Prod.snd =
        some ((((s.take (i + 1)).map Prod.snd).sum) / ((i : ℚ) + 1))) ∧
    (∀ i, n - 1 ≤ i → i < s.length →
      ((Analyse.filterSeries s n)[i]?).map Prod.snd =
        some (((((s.drop (i + 1 - n)).take n).map Prod.snd).sum) / (n : ℚ))) ∧
    Analyse.filterSeries s 1 = s := by
  refine ⟨filterSeries_length s n (by omega), ?_, ?_, ?_, ?_⟩
  · intro i hi
    by_cases hw : i < n - 1
    · rw [filterSeries_getElem?_warm s n i hw, List.getElem?_eq_getElem hi]
      simp [List.getD_eq_getElem?_getD, List.getElem?_eq_getElem hi]
    · rw [filterSeries_getElem?_tail s n i (by omega) hi,
        List.getElem?_eq_getElem hi]
      simp [List.getD_eq_getElem?_getD, List.getElem?_eq_getElem hi]
  · intro i hiw
    rw [filterSeries_getElem?_warm s n i hiw,
      range_map_getD_snd s (i + 1) (by omega)]
    rfl
  · intro i hi1 hi2
    rw [filterSeries_getElem?_tail s n i hi1 hi2,
      show i + 1 - (i + 1 - n) = n by omega,
      range'_map_getD_snd s (i + 1 - n) n (by omega)]
    rfl
  · apply List.ext_getElem?
    intro j
    by_cases hj : j < s.length
    · rw [filterSeries_getElem?_tail s 1 j (by omega) hj,
        show j + 1 - 1 = j by omega, show j + 1 - j = 1 by omega,
        List.range'_one]
      simp [List.getD_eq_getElem?_getD, List.getElem?_eq_getElem hj]
    · rw [List.getElem?_eq_none
          (by rw [filterSeries_length s 1 (by omega)]; omega),
        List.getElem?_eq_none (by omega)]

theorem filterSeries_spec_witness :
    Analyse.filterSeries [((0 : ℚ), (1 : ℚ)), (1, 3), (2, 5)] 1 =
      [((0 : ℚ), (1 : ℚ)), (1, 3), (2, 5)] :=
  (filterSeries_spec [((0 : ℚ), (1 : ℚ)), (1, 3), (2, 5)] 1 (by norm_num)
    (by simp)).2.2.2.2

/-- C5: in produceSeries with dataKind pace, the y-value of every point is
(1/speed) * 100/6 when the point's computed speed exceeds 100/(6*60) and is
exactly 60 when the speed is at or below that threshold, so the division is
never performed on a speed at or below it. -/
theorem produceSeries_pace_clamped (d : GeoDist) (arrangeAs : String)
    (t : Track) (i : ℕ) (p : TrackPoint) (s : ℚ)
    (hp : (computeSpeedForEachTrackPoint d
      (if arrangeAs = "distance series" then
        computeAccDistanceForEachTrackPoint d t else t)).flatten[i]? = some p)
    (hs : p.speed = some s) :
    ∃ x : ℚ,
      (Track.produceSeries d arrangeAs "pace" t)[i]? =
        some (x, if 100 / (6 * 60) < s then 1 / s * 100 / 6 else 60) ∧
      (100 / (6 * 60) < s →
        (Track.produceSeries d arrangeAs "pace" t)[i]? =
          some (x, 1 / s * 100 / 6)) ∧
      (s ≤ 100 / (6 * 60) →
        (Track.produceSeries d arrangeAs "pace" t)[i]? = some (x, 60)) := by
  simp only [Track.produceSeries, true_or, if_true]
  rw [List.getElem?_map, hp]
  refine ⟨(if arrangeAs = "time series" then
      produceSeriesXTime (computeSpeedForEachTrackPoint d
        (if arrangeAs = "distance series" then
          computeAccDistanceForEachTrackPoint d t else t))
    else produceSeriesXDist) p, ?_, ?_, ?_⟩
  · simp [paceFromSpeed, hs]
  · intro hlt
    simp [paceFromSpeed, hs, hlt]
  · intro hle
    simp [paceFromSpeed, hs, not_lt.2 hle]

theorem produceSeries_pace_clamped_witness :
    ∃ x : ℚ, (Track.produceSeries dLat "distance series" "pace"
      trackGaps)[1]? = some (x, 1 / 100 * 100 / 6) := by
  obtain ⟨x, -, h2, -⟩ := produceSeries_pace_clamped dLat "distance series"
    trackGaps 1 ⟨100, 0, 0, 1, some 100, none, some 100⟩ 100
    (by with_unfolding_all decide) rfl
  exact ⟨x, h2 (by norm_num)⟩

theorem passFollow_length (upd : Option TrackPoint → TrackPoint → TrackPoint) :
    ∀ (l : List TrackPoint) (prev : Option TrackPoint),
      (passFollow upd prev l).length = l.length
  | [], _ => rfl
  | p :: rest, prev => by
    simp only [passFollow, List.length_cons]
    rw [passFollow_length upd rest]

theorem carryAfter_eq_getLast?
    (upd : Option TrackPoint → TrackPoint → TrackPoint) :
    ∀ (l : List TrackPoint) (prev : Option TrackPoint), l ≠ [] →
      (passFollow upd prev l).getLast? = carryAfter upd prev l
  | [], _, h => absurd rfl h
  | [p], prev, _ => rfl
  | p :: q :: rest, prev, _ => by
    have h1 : passFollow upd prev (p :: q :: rest) =
        upd prev p :: upd (some (upd prev p)) q ::
          passFollow upd (some (upd (some (upd prev p)) q)) rest := rfl
    rw [h1, List.getLast?_cons_cons]
    have h2 : upd (some (upd prev p)) q ::
        passFollow upd (some (upd (some (upd prev p)) q)) rest =
        passFollow upd (some (upd prev p)) (q :: rest) := rfl
    rw [h2, carryAfter_eq_getLast? upd (q :: rest) (some (upd prev p))
      (by simp)]
    rfl

theorem passFollow_append
    (upd : Option TrackPoint → TrackPoint → TrackPoint) :
    ∀ (xs ys : List TrackPoint) (prev : Option TrackPoint),
      passFollow upd prev (xs ++ ys) =
        passFollow upd prev xs ++
          passFollow upd (carryAfter upd prev xs) ys
  | [], ys, prev => rfl
  | p :: rest, ys, prev => by
    simp only [List.cons_append]
    rw [show passFollow upd prev (p :: (rest ++ ys)) =
      upd prev p :: passFollow upd (some (upd prev p)) (rest ++ ys) from rfl]
    rw [passFollow_append upd rest ys (some (upd prev p))]
    rfl

theorem passSegs_flatten (upd : Option TrackPoint → TrackPoint → TrackPoint) :
    ∀ (segs : Track) (prev : Option TrackPoint),
      (∀ seg ∈ segs, seg ≠ []) →
      (passSegs upd prev segs).flatten = passFollow upd prev segs.flatten
  | [], _, _ => rfl
  | seg :: rest, prev, h => by
    have hseg : seg ≠ [] := h seg (List.mem_cons_self _ _)
    have hrest : ∀ s ∈ rest, s ≠ [] :=
      fun s hs => h s (List.mem_cons_of_mem _ hs)
    show (passFollow upd prev seg ::
      passSegs upd (passFollow upd prev seg).getLast? rest).flatten =
      passFollow upd prev ((seg :: rest).flatten)
    rw [List.flatten_cons, List.flatten_cons,
      passFollow_append upd seg rest.flatten prev,
      passSegs_flatten upd rest ((passFollow upd prev seg).getLast?) hrest,
      carryAfter_eq_getLast? upd seg prev hseg]

theorem passFollow_getElem?_fmap {α : Type}
    (upd : Option TrackPoint → TrackPoint → TrackPoint) (f : TrackPoint → α)
    (hf : ∀ prev p, f (upd prev p) = f p) :
    ∀ (l : List TrackPoint) (prev : Option TrackPoint) (i : ℕ),
      ((passFollow upd prev l)[i]?).map f = (l[i]?).map f
  | [], _, _ => by simp [passFollow]
  | p :: rest, prev, 0 => by
    rw [show passFollow upd prev (p :: rest) =
      upd prev p :: passFollow upd (some (upd prev p)) rest from rfl]
    simp [hf]
  | p :: rest, prev, (i + 1) => by
    rw [show passFollow upd prev (p :: rest) =
      upd prev p :: passFollow upd (some (upd prev p)) rest from rfl]
    simp only [List.getElem?_cons_succ]
    exact passFollow_getElem?_fmap upd f hf rest (some (upd prev p)) i

theorem passFollow_getElem?_succ
    (upd : Option TrackPoint → TrackPoint → TrackPoint) :
    ∀ (l : List TrackPoint) (prev : Option TrackPoint) (i : ℕ)
      (q p : TrackPoint),
      (passFollow upd prev l)[i]? = some q → l[i + 1]? = some p →
      (passFollow upd prev l)[i + 1]? = some (upd (some q) p)
  | [], _, _, _, _ => by simp [passFollow]
  | a :: rest, prev, 0, q, p => by
    rw [show passFollow upd prev (a :: rest) =
      upd prev a :: passFollow upd (some (upd prev a)) rest from rfl]
    intro h1 h2
    simp only [List.getElem?_cons_zero, Option.some_inj] at h1
    simp only [List.getElem?_cons_succ] at h2 ⊢
    cases rest with
    | nil => simp at h2
    | cons r rs =>
      simp only [List.getElem?_cons_zero, Option.some_inj] at h2
      subst h2
      subst h1
      rw [show passFollow upd (some (upd prev a)) (r :: rs) =
        upd (some (upd prev a)) r ::
          passFollow upd (some (upd (some (upd prev a)) r)) rs from rfl]
      simp
  | a :: rest, prev, (i + 1), q, p => by
    rw [show passFollow upd prev (a :: rest) =
      upd prev a :: passFollow upd (some (upd prev a)) rest from rfl]
    intro h1 h2
    simp only [List.getElem?_cons_succ] at h1 h2 ⊢
    exact passFollow_getElem?_succ upd rest (some (upd prev a)) i q p h1 h2

theorem speedUpd_pos (d : GeoDist) (prev : Option TrackPoint)
    (p : TrackPoint) : (speedUpd d prev p).pos = p.pos := by
  cases prev <;> rfl

theorem speedUpd_time (d : GeoDist) (prev : Option TrackPoint)
    (p : TrackPoint) : (speedUpd d prev p).time = p.time := by
  cases prev <;> rfl

/-- C7: after the speed pass on a track whose segments all have at least two
points, every point except the first carries speed = distance to its true
predecessor in flattened order (crossing segment boundaries) divided by the
time interval to it, and the first point of the track carries the speed of
the second point. -/
theorem computeSpeedForEachTrackPoint_spec (d : GeoDist) (t : Track)
    (hne : t ≠ []) (hsegs : ∀ seg ∈ t, 2 ≤ seg.length) :
    (computeSpeedForEachTrackPoint d t).flatten.length = t.flatten.length ∧
    (∀ i q p, t.flatten[i]? = some q → t.flatten[i + 1]? = some p →
      ((computeSpeedForEachTrackPoint d t).flatten[i + 1]?).map
          TrackPoint.speed =
        some (some (d p.pos q.pos / (p.time - q.time)))) ∧
    (∀ p0 p1, (computeSpeedForEachTrackPoint d t).flatten[0]? = some p0 →
      (computeSpeedForEachTrackPoint d t).flatten[1]? = some p1 →
      p0.speed = p1.speed) := by
  cases t with
  | nil => exact absurd rfl hne
  | cons seg0 rest =>
  cases seg0 with
  | nil =>
    have := hsegs [] (List.mem_cons_self _ _)
    simp only [List.length_nil] at this
    omega
  | cons a seg1 =>
  cases seg1 with
  | nil =>
    have := hsegs [a] (List.mem_cons_self _ _)
    simp only [List.length_cons, List.length_nil] at this
    omega
  | cons b tail =>
  obtain ⟨p0, p1, w, hF, hU⟩ :
      ∃ p0 p1 w,
        (passSegs (speedUpd d) none ((a :: b :: tail) :: rest)).flatten =
          p0 :: p1 :: w ∧
        (computeSpeedForEachTrackPoint d
          ((a :: b :: tail) :: rest)).flatten =
          { p0 with speed := p1.speed } :: p1 :: w :=
    ⟨_, _, _, rfl, rfl⟩
  have hnonnil : ∀ seg ∈ (a :: b :: tail) :: rest, seg ≠ [] := by
    intro seg hseg
    have h2 := hsegs seg hseg
    intro hcontra
    rw [hcontra] at h2
    simp at h2
  have hFl : (passSegs (speedUpd d) none ((a :: b :: tail) :: rest)).flatten =
      passFollow (speedUpd d) none (((a :: b :: tail) :: rest) :
        Track).flatten :=
    passSegs_flatten (speedUpd d) ((a :: b :: tail) :: rest) none hnonnil
  refine ⟨?_, ?_, ?_⟩
  · rw [hU, ← passFollow_length (speedUpd d)
      ((((a :: b :: tail) :: rest) : Track).flatten) none, ← hFl, hF]
    rfl
  · intro i q p h1 h2
    have hq' := passFollow_getElem?_fmap (speedUpd d) TrackPoint.pos
      (speedUpd_pos d) ((((a :: b :: tail) :: rest) : Track).flatten) none i
    rw [h1] at hq'
    obtain ⟨q2, hq2, hq2pos⟩ := Option.map_eq_some'.mp hq'
    have ht' := passFollow_getElem?_fmap (speedUpd d) TrackPoint.time
      (speedUpd_time d) ((((a :: b :: tail) :: rest) : Track).flatten) none i
    rw [h1, hq2] at ht'
    simp only [Option.map_some'] at ht'
    have hsucc := passFollow_getElem?_succ (speedUpd d)
      ((((a :: b :: tail) :: rest) : Track).flatten) none i q2 p hq2 h2
    have hEq : (computeSpeedForEachTrackPoint d
        ((a :: b :: tail) :: rest)).flatten[i + 1]? =
        (passFollow (speedUpd d) none ((((a :: b :: tail) :: rest) :
          Track).flatten))[i + 1]? := by
      rw [hU, ← hFl, hF]
      rfl
    rw [hEq, hsucc]
    simp only [Option.map_some', speedUpd, Option.some_inj]
    rw [hq2pos, Option.some_inj.mp ht']
  · intro p0x p1x h0 h1
    rw [hU] at h0 h1
    simp only [List.getElem?_cons_zero, List.getElem?_cons_succ,
      Option.some_inj] at h0 h1
    rw [← h0, ← h1]

theorem computeSpeedForEachTrackPoint_spec_witness :
    ((computeSpeedForEachTrackPoint dLat trackTwoSegs).flatten[2]?).map
      TrackPoint.speed = some (some 2) := by
  have h := (computeSpeedForEachTrackPoint_spec dLat trackTwoSegs
    (by simp [trackTwoSegs]) (by
      intro seg hseg
      simp only [trackTwoSegs, List.mem_cons, List.not_mem_nil,
        or_false] at hseg
      rcases hseg with rfl | rfl <;> simp)).2.1 1 (mkPt 1 1) (mkPt 3 2)
    (by with_unfolding_all decide) (by with_unfolding_all decide)
  rw [h]
  norm_num [dLat, mkPt, TrackPoint.pos]

theorem chain_getElem?_lt (idxs : List ℕ)
    (hchain : List.Chain' (· < ·) idxs) (i a b : ℕ)
    (ha : idxs[i]? = some a) (hb : idxs[i + 1]? = some b) : a < b := by
  have hpair := List.chain'_iff_pairwise.mp hchain
  obtain ⟨hia, rfl⟩ := List.getElem?_eq_some.mp ha
  obtain ⟨hib, rfl⟩ := List.getElem?_eq_some.mp hb
  exact List.pairwise_iff_getElem.mp hpair i (i + 1) hia hib (by omega)

theorem chain_getElem?_le_getLast (idxs : List ℕ)
    (hchain : List.Chain' (· < ·) idxs) (m : ℕ)
    (hm : idxs.getLast? = some m) (i a : ℕ) (ha : idxs[i]? = some a) :
    a ≤ m := by
  have hpair := List.chain'_iff_pairwise.mp hchain
  obtain ⟨hia, rfl⟩ := List.getElem?_eq_some.mp ha
  rw [List.getLast?_eq_getElem?] at hm
  obtain ⟨him, hmeq⟩ := List.getElem?_eq_some.mp hm
  rcases Nat.lt_or_ge i (idxs.length - 1) with hlt | hge
  · have := List.pairwise_iff_getElem.mp hpair i (idxs.length - 1) hia him hlt
    omega
  · have : i = idxs.length - 1 := by omega
    subst this
    omega

theorem split_length (pts : List TrackPoint) (idxs : List ℕ) :
    (LapExtractor.split pts idxs).length = idxs.length - 1 := by
  unfold LapExtractor.split
  simp only [List.length_map, List.enum_length, List.length_zip,
    List.length_tail]
  omega

theorem split_getElem? (pts : List TrackPoint) (idxs : List ℕ) (i a b : ℕ)
    (ha : idxs[i]? = some a) (hb : idxs[i + 1]? = some b) :
    (LapExtractor.split pts idxs)[i]? =
      some (LapExtractor.splitLap pts i a b) := by
  unfold LapExtractor.split
  rw [List.getElem?_map, List.getElem?_enum]
  have hz : (idxs.zip idxs.tail)[i]? = some (a, b) :=
    List.getElem?_zip_eq_some.2 ⟨ha, by rw [List.getElem?_tail]; exact hb⟩
  rw [hz]
  rfl

theorem splitLap_slice (pts : List TrackPoint) (a b : ℕ) (hab : a ≤ b)
    (hb : b < pts.length) :
    ((pts.drop a).take (b + 1 - a)).length = b + 1 - a ∧
    (∀ j, j < b + 1 - a →
      ((pts.drop a).take (b + 1 - a))[j]? = pts[a + j]?) ∧
    ((pts.drop a).take (b + 1 - a)).head? = pts[a]? ∧
    ((pts.drop a).take (b + 1 - a)).getLast? = pts[b]? := by
  have hget : ∀ j, j < b + 1 - a →
      ((pts.drop a).take (b + 1 - a))[j]? = pts[a + j]? := by
    intro j hj
    rw [List.getElem?_take_of_lt hj, List.getElem?_drop]
  have hlen : ((pts.drop a).take (b + 1 - a)).length = b + 1 - a := by
    rw [List.length_take, List.length_drop]
    omega
  refine ⟨hlen, hget, ?_, ?_⟩
  · rw [List.head?_eq_getElem?, hget 0 (by omega), Nat.add_zero]
  · rw [List.getLast?_eq_getElem?, hlen, hget (b + 1 - a - 1) (by omega),
      show a + (b + 1 - a - 1) = b by omega]

theorem Lap.points_ofPoints (n : ℕ) (sd : Option ℚ) (l : List TrackPoint) :
    Lap.points (Lap.ofPoints n sd l) = l := by
  simp [Lap.points, Lap.ofPoints]

theorem samePoint_shiftPoint (init : Option ℚ) (p : TrackPoint) :
    samePoint (shiftPoint init p) p :=
  ⟨rfl, rfl, rfl, rfl, rfl⟩

theorem splitLap_spec (pts : List TrackPoint) (i a b : ℕ) (hab : a < b)
    (hb : b < pts.length)
    (hacc : ∀ p ∈ pts, p.accumulatedDistance.isSome) :
    (LapExtractor.splitLap pts i a b).lapNumber = i + 1 ∧
    (∀ pa, pts[a]? = some pa →
      (LapExtractor.splitLap pts i a b).startingDistance =
        pa.accumulatedDistance) ∧
    (Lap.points (LapExtractor.splitLap pts i a b)).length = b + 1 - a ∧
    (∀ j pj pa, j ≤ b - a → pts[a + j]? = some pj → pts[a]? = some pa →
      ∃ q, (Lap.points (LapExtractor.splitLap pts i a b))[j]? = some q ∧
        samePoint q pj ∧
        ∀ vj va, pj.accumulatedDistance = some vj →
          pa.accumulatedDistance = some va →
          q.accumulatedDistance = some (vj - va)) ∧
    ((Lap.points (LapExtractor.splitLap pts i a b))[0]?).bind
      TrackPoint.accumulatedDistance = some 0 ∧
    (∀ pb, pts[b]? = some pb →
      ∃ qL, (Lap.points (LapExtractor.splitLap pts i a b)).getLast? =
        some qL ∧ samePoint qL pb) := by
  obtain ⟨hlen, hget, hhead, hlast⟩ :=
    splitLap_slice pts a b (le_of_lt hab) hb
  set slice := (pts.drop a).take (b + 1 - a) with hslice
  set init := slice.head?.bind TrackPoint.accumulatedDistance with hinitdef
  have hsplit : LapExtractor.splitLap pts i a b =
      Lap.ofPoints (i + 1) init (slice.map (shiftPoint init)) := rfl
  have hpoints : Lap.points (LapExtractor.splitLap pts i a b) =
      slice.map (shiftPoint init) := by
    rw [hsplit, Lap.points_ofPoints]
  have ha' : a < pts.length := by omega
  have hpa0 : pts[a]? = some pts[a] := List.getElem?_eq_getElem ha'
  obtain ⟨va0, hva0⟩ := Option.isSome_iff_exists.mp
    (hacc pts[a] (List.getElem_mem ha'))
  have hinit : init = some va0 := by
    rw [hinitdef, hhead, hpa0]
    exact hva0
  refine ⟨by rw [hsplit]; rfl, ?_, ?_, ?_, ?_, ?_⟩
  · intro pa hpa
    rw [hsplit]
    show init = pa.accumulatedDistance
    rw [hinitdef, hhead, hpa]
    rfl
  · rw [hpoints, List.length_map, hlen]
  · intro j pj pa hj hpj hpa
    have hj' : j < b + 1 - a := by omega
    refine ⟨shiftPoint init pj, ?_, samePoint_shiftPoint _ _, ?_⟩
    · rw [hpoints, List.getElem?_map, hget j hj', hpj]
      rfl
    · intro vj va hvj hva
      have hinit2 : init = some va := by
        rw [hinitdef, hhead, hpa]
        exact hva
      simp [shiftPoint, hinit2, hvj]
  · rw [hpoints, List.getElem?_map, hget 0 (by omega), Nat.add_zero, hpa0]
    simp [shiftPoint, hinit, hva0]
  · intro pb hpb
    refine ⟨shiftPoint init pb, ?_, samePoint_shiftPoint _ _⟩
    rw [hpoints, List.getLast?_map, hlast, hpb]
    rfl

/-- C1: the split routine, applied to boundary indices starting at 0,
strictly increasing and ending at the last index of the serialized track,
produces one lap per consecutive boundary pair; lap i (1-indexed) carries
lapNumber i, holds copies of exactly the points between its two boundaries
inclusive, agreeing with the reference points everywhere except that each
accumulated distance is shifted down by the lap's startingDistance, which is
the reference accumulated distance at the left boundary, so the lap's first
point reads distance 0; consequently consecutive laps hold copies of the
same boundary reference point. -/
theorem split_spec (pts : List TrackPoint) (idxs : List ℕ)
    (hhead : idxs[0]? = some 0)
    (hchain : List.Chain' (· < ·) idxs)
    (hlast : idxs.getLast? = some (pts.length - 1))
    (hacc : ∀ p ∈ pts, p.accumulatedDistance.isSome)
    (hlen : 2 ≤ pts.length) :
    (LapExtractor.split pts idxs).length = idxs.length - 1 ∧
    (∀ i a b lap, idxs[i]? = some a → idxs[i + 1]? = some b →
      (LapExtractor.split pts idxs)[i]? = some lap →
      lap.lapNumber = i + 1 ∧
      (∀ pa, pts[a]? = some pa →
        lap.startingDistance = pa.accumulatedDistance) ∧
      (Lap.points lap).length = b + 1 - a ∧
      (∀ j pj pa, j ≤ b - a → pts[a + j]? = some pj → pts[a]? = some pa →
        ∃ q, (Lap.points lap)[j]? = some q ∧ samePoint q pj ∧
          ∀ vj va, pj.accumulatedDistance = some vj →
            pa.accumulatedDistance = some va →
            q.accumulatedDistance = some (vj - va)) ∧
      ((Lap.points lap)[0]?).bind TrackPoint.accumulatedDistance = some 0) ∧
    (∀ i b lapA lapB,
      (LapExtractor.split pts idxs)[i]? = some lapA →
      (LapExtractor.split pts idxs)[i + 1]? = some lapB →
      idxs[i + 1]? = some b →
      ∃ pb qA qB, pts[b]? = some pb ∧
        (Lap.points lapA).getLast? = some qA ∧
        (Lap.points lapB)[0]? = some qB ∧
        samePoint qA pb ∧ samePoint qB pb) := by
  refine ⟨split_length pts idxs, ?_, ?_⟩
  · intro i a b lap ha hb hlap
    have hab : a < b := chain_getElem?_lt idxs hchain i a b ha hb
    have hble : b ≤ pts.length - 1 :=
      chain_getElem?_le_getLast idxs hchain _ hlast (i + 1) b hb
    have hblt : b < pts.length := by omega
    rw [split_getElem? pts idxs i a b ha hb] at hlap
    obtain rfl : lap = LapExtractor.splitLap pts i a b :=
      (Option.some_inj.mp hlap).symm
    obtain ⟨h1, h2, h3, h4, h5, -⟩ := splitLap_spec pts i a b hab hblt hacc
    exact ⟨h1, h2, h3, h4, h5⟩
  · intro i b lapA lapB hA hB hb
    have hiA : i < idxs.length - 1 := by
      obtain ⟨h, -⟩ := List.getElem?_eq_some.mp hA
      rwa [split_length] at h
    have hiB : i + 1 < idxs.length - 1 := by
      obtain ⟨h, -⟩ := List.getElem?_eq_some.mp hB
      rwa [split_length] at h
    have hia : i < idxs.length := by omega
    have hic : i + 2 < idxs.length := by omega
    have ha : idxs[i]? = some idxs[i] := List.getElem?_eq_getElem hia
    have hc : idxs[i + 2]? = some idxs[i + 2] := List.getElem?_eq_getElem hic
    have hab : idxs[i] < b := chain_getElem?_lt idxs hchain i idxs[i] b ha hb
    have hbc : b < idxs[i + 2] :=
      chain_getElem?_lt idxs hchain (i + 1) b idxs[i + 2] hb hc
    have hcle : idxs[i + 2] ≤ pts.length - 1 :=
      chain_getElem?_le_getLast idxs hchain _ hlast (i + 2) idxs[i + 2] hc
    have hblt : b < pts.length := by omega
    rw [split_getElem? pts idxs i idxs[i] b ha hb] at hA
    rw [split_getElem? pts idxs (i + 1) b idxs[i + 2] hb hc] at hB
    obtain rfl : lapA = LapExtractor.splitLap pts i idxs[i] b :=
      (Option.some_inj.mp hA).symm
    obtain rfl : lapB = LapExtractor.splitLap pts (i + 1) b idxs[i + 2] :=
      (Option.some_inj.mp hB).symm
    have hpbs : pts[b]? = some pts[b] := List.getElem?_eq_getElem hblt
    obtain ⟨-, -, -, -, -, h6A⟩ := splitLap_spec pts i idxs[i] b hab hblt hacc
    obtain ⟨qL, hqL, hqLsame⟩ := h6A pts[b] hpbs
    obtain ⟨-, -, -, h4B, -, -⟩ :=
      splitLap_spec pts (i + 1) b idxs[i + 2] hbc (by omega) hacc
    obtain ⟨qB, hqB, hqBsame, -⟩ := h4B 0 pts[b] pts[b] (by omega)
      (by rw [Nat.add_zero]; exact hpbs) hpbs
    exact ⟨pts[b], qL, qB, hpbs, hqL, hqB, hqLsame, hqBsame⟩

theorem split_spec_witness :
    (LapExtractor.split (Track.getSerialized dLat trackGaps)
      [0, 1, 2]).length = 2 := by
  have h := (split_spec (Track.getSerialized dLat trackGaps) [0, 1, 2]
    (by with_unfolding_all decide) (by simp [List.chain'_cons])
    (by with_unfolding_all decide) (by with_unfolding_all decide)
    (by with_unfolding_all decide)).1
  simpa using h

theorem autoDistInner_ge (pts : List TrackPoint) (S initial : ℚ) :
    ∀ (fuel index : ℕ) (lapD : ℚ),
      index ≤ autoDistInner pts S initial fuel index lapD
  | 0, _, _ => le_refl _
  | fuel + 1, index, lapD => by
    unfold autoDistInner
    split
    · exact le_trans (Nat.le_succ index)
        (autoDistInner_ge pts S initial fuel (index + 1) _)
    · exact le_refl _

theorem autoDistInner_le (pts : List TrackPoint) (S initial : ℚ) :
    ∀ (fuel index : ℕ) (lapD : ℚ), index ≤ pts.length →
      autoDistInner pts S initial fuel index lapD ≤ pts.length
  | 0, _, _, h => h
  | fuel + 1, index, lapD, h => by
    unfold autoDistInner
    split
    · rename_i hcond
      exact autoDistInner_le pts S initial fuel (index + 1) _ hcond.2
    · exact h

theorem autoDistInner_gt (pts : List TrackPoint) (S initial : ℚ)
    (hS : 0 < S) (fuel index : ℕ) (hfuel : 1 ≤ fuel)
    (hidx : index < pts.length) :
    index < autoDistInner pts S initial fuel index 0 := by
  cases fuel with
  | zero => omega
  | succ f =>
    unfold autoDistInner
    rw [if_pos ⟨hS, hidx⟩]
    exact lt_of_lt_of_le (Nat.lt_succ_self index)
      (autoDistInner_ge pts S initial f (index + 1) _)

theorem autoDistOuter_spec (pts : List TrackPoint) (S : ℚ) (hS : 0 < S) :
    ∀ (fuel index : ℕ) (idxs : List ℕ),
      1 ≤ index → index ≤ pts.length → pts.length ≤ fuel + index →
      idxs ≠ [] → idxs.getLast? = some (index - 1) →
      List.Chain' (· < ·) idxs →
      autoDistOuter pts S fuel index idxs ≠ [] ∧
      (autoDistOuter pts S fuel index idxs).getLast? =
        some (pts.length - 1) ∧
      List.Chain' (· < ·) (autoDistOuter pts S fuel index idxs) ∧
      (autoDistOuter pts S fuel index idxs)[0]? = idxs[0]?
  | 0, index, idxs, h1, h2, h3, h4, h5, h6 => by
    unfold autoDistOuter
    have : index = pts.length := by omega
    subst this
    exact ⟨h4, h5, h6, rfl⟩
  | fuel + 1, index, idxs, h1, h2, h3, h4, h5, h6 => by
    unfold autoDistOuter
    split
    · rename_i hcond
      have hgt : index < autoDistInner pts S (accD pts (index - 1))
          pts.length index 0 :=
        autoDistInner_gt pts S (accD pts (index - 1)) hS pts.length index
          (by omega) hcond
      have hle : autoDistInner pts S (accD pts (index - 1))
          pts.length index 0 ≤ pts.length :=
        autoDistInner_le pts S (accD pts (index - 1)) pts.length index 0 h2
      have hchain2 : List.Chain' (· < ·)
          (idxs ++ [autoDistInner pts S (accD pts (index - 1))
            pts.length index 0 - 1]) := by
        rw [List.chain'_append]
        refine ⟨h6, List.chain'_singleton _, ?_⟩
        intro x hx y hy
        rw [h5] at hx
        simp only [Option.mem_def, Option.some_inj] at hx
        simp only [List.head?_cons, Option.mem_def, Option.some_inj] at hy
        omega
      obtain ⟨r1, r2, r3, r4⟩ := autoDistOuter_spec pts S hS fuel
        (autoDistInner pts S (accD pts (index - 1)) pts.length index 0)
        (idxs ++ [autoDistInner pts S (accD pts (index - 1))
          pts.length index 0 - 1])
        (by omega) hle (by omega) (by simp) (List.getLast?_concat _) hchain2
      refine ⟨r1, r2, r3, ?_⟩
      rw [r4, List.getElem?_append_left]
      cases idxs with
      | nil => exact absurd rfl h4
      | cons z zs => simp
    · rename_i hcond
      have : index = pts.length := by omega
      subst this
      exact ⟨h4, h5, h6, rfl⟩

theorem accPass_isSome (d : GeoDist) :
    ∀ (l : List TrackPoint) (prev : Option TrackPoint),
      (∀ q, prev = some q → q.accumulatedDistance.isSome) →
      ∀ p ∈ passFollow (accUpd d) prev l, p.accumulatedDistance.isSome
  | [], _, _ => by simp [passFollow]
  | p :: rest, prev, hprev => by
    rw [show passFollow (accUpd d) prev (p :: rest) = accUpd d prev p ::
      passFollow (accUpd d) (some (accUpd d prev p)) rest from rfl]
    have hhead : (accUpd d prev p).accumulatedDistance.isSome := by
      cases prev with
      | none => rfl
      | some q =>
        obtain ⟨v, hv⟩ := Option.isSome_iff_exists.mp (hprev q rfl)
        simp [accUpd, hv]
    intro x hx
    rcases List.mem_cons.mp hx with rfl | hx2
    · exact hhead
    · exact accPass_isSome d rest (some (accUpd d prev p))
        (fun q hq => by rw [← Option.some_inj.mp hq]; exact hhead) x hx2

theorem serialized_isSome (d : GeoDist) (t : Track)
    (hsegs : ∀ seg ∈ t, seg ≠ []) :
    ∀ p ∈ Track.getSerialized d t, p.accumulatedDistance.isSome := by
  unfold Track.getSerialized computeAccDistanceForEachTrackPoint
  rw [passSegs_flatten (accUpd d) t none hsegs]
  exact accPass_isSome d t.flatten none (fun q hq => by cases hq)

theorem serialized_head_zero (d : GeoDist) (t : Track)
    (hsegs : ∀ seg ∈ t, seg ≠ []) (hfne : t.flatten ≠ []) :
    ((Track.getSerialized d t)[0]?).bind TrackPoint.accumulatedDistance =
      some 0 := by
  unfold Track.getSerialized computeAccDistanceForEachTrackPoint
  rw [passSegs_flatten (accUpd d) t none hsegs]
  cases hfl : t.flatten with
  | nil => exact absurd hfl hfne
  | cons p rest =>
    rw [show passFollow (accUpd d) none (p :: rest) =
      accUpd d none p :: passFollow (accUpd d) (some (accUpd d none p)) rest
      from rfl]
    simp [accUpd]

theorem serialized_length (d : GeoDist) (t : Track)
    (hsegs : ∀ seg ∈ t, seg ≠ []) :
    (Track.getSerialized d t).length = t.flatten.length := by
  unfold Track.getSerialized computeAccDistanceForEachTrackPoint
  rw [passSegs_flatten (accUpd d) t none hsegs]
  exact passFollow_length (accUpd d) t.flatten none

theorem lastPoint_eq_flatten_getLast? :
    ∀ (t : Track), t ≠ [] → (∀ seg ∈ t, seg ≠ []) →
      Track.lastPoint t = t.flatten.getLast?
  | [], hne, _ => absurd rfl hne
  | [seg], _, _ => by
    simp [Track.lastPoint, List.flatten_cons]
  | seg :: s2 :: r2, _, hsegs => by
    have ih := lastPoint_eq_flatten_getLast? (s2 :: r2) (by simp)
      (fun s hs => hsegs s (List.mem_cons_of_mem _ hs))
    have h2 : Track.lastPoint (seg :: s2 :: r2) =
        Track.lastPoint (s2 :: r2) := by
      simp only [Track.lastPoint, List.getLast?_cons_cons]
    have hone : (s2 :: r2 : Track).flatten ≠ [] := by
      have hs2 : s2 ≠ [] := hsegs s2 (by simp)
      cases hs2e : s2 with
      | nil => exact absurd hs2e hs2
      | cons x xs => simp [List.flatten_cons, hs2e]
    rw [h2, ih]
    conv_rhs => rw [List.flatten_cons, List.getLast?_append_of_ne_nil _ hone]

theorem passSegs_segs_ne_nil
    (upd : Option TrackPoint → TrackPoint → TrackPoint) :
    ∀ (segs : Track) (prev : Option TrackPoint),
      (∀ s ∈ segs, s ≠ []) →
      ∀ s ∈ passSegs upd prev segs, s ≠ []
  | [], _, _ => by simp [passSegs]
  | seg :: rest, prev, h => by
    rw [show passSegs upd prev (seg :: rest) = passFollow upd prev seg ::
      passSegs upd (passFollow upd prev seg).getLast? rest from rfl]
    intro s hs
    rcases List.mem_cons.mp hs with rfl | hs2
    · intro hcon
      have := passFollow_length upd seg prev
      rw [hcon] at this
      have hne := h seg (by simp)
      cases hseg : seg with
      | nil => exact hne hseg
      | cons x xs =>
        rw [hseg] at this
        simp at this
    · exact passSegs_segs_ne_nil upd rest _
        (fun s2 hs2m => h s2 (List.mem_cons_of_mem _ hs2m)) s hs2

theorem totalDistance_of_lastPoint (d : GeoDist) (t : Track) (p : TrackPoint)
    (v : ℚ) (hlp : Track.lastPoint t = some p)
    (haccp : p.accumulatedDistance = some v) :
    Track.totalDistance d t = v := by
  unfold Track.totalDistance
  split
  · rename_i h
    rw [hlp] at h
    cases h
  · rename_i q h
    rw [hlp] at h
    obtain rfl := Option.some_inj.mp h
    split
    · rename_i r hr
      rw [haccp] at hr
      exact (Option.some_inj.mp hr).symm
    · rename_i hr
      rw [haccp] at hr
      cases hr

theorem splitLap_totalDistance (d : GeoDist) (pts : List TrackPoint)
    (i a b : ℕ) (hab : a < b) (hb : b < pts.length)
    (hacc : ∀ p ∈ pts, p.accumulatedDistance.isSome) :
    Track.totalDistance d (LapExtractor.splitLap pts i a b).trackSegList =
      ((pts[b]?.bind TrackPoint.accumulatedDistance).getD 0) -
        ((pts[a]?.bind TrackPoint.accumulatedDistance).getD 0) := by
  obtain ⟨hlen, hget, hhead, hlast⟩ :=
    splitLap_slice pts a b (le_of_lt hab) hb
  set slice := (pts.drop a).take (b + 1 - a) with hslice
  set init := slice.head?.bind TrackPoint.accumulatedDistance with hinitdef
  have ha' : a < pts.length := by omega
  have hpa : pts[a]? = some pts[a] := List.getElem?_eq_getElem ha'
  have hpb : pts[b]? = some pts[b] := List.getElem?_eq_getElem hb
  obtain ⟨va, hva⟩ := Option.isSome_iff_exists.mp
    (hacc pts[a] (List.getElem_mem ha'))
  obtain ⟨vb, hvb⟩ := Option.isSome_iff_exists.mp
    (hacc pts[b] (List.getElem_mem hb))
  have hinit : init = some va := by
    rw [hinitdef, hhead, hpa]
    exact hva
  have hseglist : (LapExtractor.splitLap pts i a b).trackSegList =
      [slice.map (shiftPoint init)] := rfl
  have hlp : Track.lastPoint
      (LapExtractor.splitLap pts i a b).trackSegList =
      some (shiftPoint init pts[b]) := by
    rw [hseglist]
    show (slice.map (shiftPoint init)).getLast? = _
    rw [List.getLast?_map, hlast, hpb]
    rfl
  rw [totalDistance_of_lastPoint d _ (shiftPoint init pts[b]) (vb - va) hlp
    (by simp [shiftPoint, hinit, hvb]), hpa, hpb]
  simp [hva, hvb]

theorem telescope_zip (g : ℕ → ℚ) :
    ∀ (x : ℕ) (xs : List ℕ),
      (((x :: xs).zip xs).map (fun ab => g ab.2 - g ab.1)).sum =
        g ((x :: xs).getLast (by simp)) - g x
  | _, [] => by simp
  | x, y :: rest => by
    rw [show (x :: y :: rest).zip (y :: rest) =
      (x, y) :: ((y :: rest).zip rest) from rfl]
    simp only [List.map_cons, List.sum_cons]
    rw [telescope_zip g y rest,
      List.getLast_cons (show (y :: rest : List ℕ) ≠ [] by simp)]
    ring

theorem split_map_totalDistance (d : GeoDist) (pts : List TrackPoint)
    (idxs : List ℕ) (hchain : List.Chain' (· < ·) idxs)
    (hlast : idxs.getLast? = some (pts.length - 1))
    (hacc : ∀ p ∈ pts, p.accumulatedDistance.isSome)
    (hlen : 2 ≤ pts.length) :
    (LapExtractor.split pts idxs).map
        (fun lap => Track.totalDistance d lap.trackSegList) =
      (idxs.zip idxs.tail).map (fun ab =>
        ((pts[ab.2]?.bind TrackPoint.accumulatedDistance).getD 0) -
          ((pts[ab.1]?.bind TrackPoint.accumulatedDistance).getD 0)) := by
  apply List.ext_getElem?
  intro i
  by_cases hi : i < (idxs.zip idxs.tail).length
  · have hz : (idxs.zip idxs.tail)[i]? = some (idxs.zip idxs.tail)[i] :=
      List.getElem?_eq_getElem hi
    obtain ⟨ha, hb⟩ := List.getElem?_zip_eq_some.mp hz
    rw [List.getElem?_tail] at hb
    have hab : (idxs.zip idxs.tail)[i].1 < (idxs.zip idxs.tail)[i].2 :=
      chain_getElem?_lt idxs hchain i _ _ ha hb
    have hble : (idxs.zip idxs.tail)[i].2 ≤ pts.length - 1 :=
      chain_getElem?_le_getLast idxs hchain _ hlast (i + 1) _ hb
    have hblt : (idxs.zip idxs.tail)[i].2 < pts.length := by omega
    rw [List.getElem?_map, List.getElem?_map, hz,
      split_getElem? pts idxs i _ _ ha hb]
    simp only [Option.map_some']
    rw [splitLap_totalDistance d pts i _ _ hab hblt hacc]
  · have hni : ¬ i < (LapExtractor.split pts idxs).length := by
      rw [split_length]
      simp only [List.length_zip, List.length_tail] at hi
      omega
    rw [List.getElem?_map, List.getElem?_map,
      List.getElem?_eq_none (by omega), List.getElem?_eq_none (by omega)]
    rfl

theorem totalDistance_computeAcc (d : GeoDist) (t : Track) (hne : t ≠ [])
    (hsegs : ∀ seg ∈ t, seg ≠ []) :
    Track.totalDistance d (computeAccDistanceForEachTrackPoint d t) =
      (((Track.getSerialized d t)[(Track.getSerialized d t).length - 1]?).bind
        TrackPoint.accumulatedDistance).getD 0 := by
  have htne : computeAccDistanceForEachTrackPoint d t ≠ [] := by
    cases t with
    | nil => exact absurd rfl hne
    | cons seg rest =>
      rw [show computeAccDistanceForEachTrackPoint d (seg :: rest) =
        passFollow (accUpd d) none seg ::
          passSegs (accUpd d) (passFollow (accUpd d) none seg).getLast? rest
        from rfl]
      simp
  have hsegs2 : ∀ s ∈ computeAccDistanceForEachTrackPoint d t, s ≠ [] :=
    passSegs_segs_ne_nil (accUpd d) t none hsegs
  have hlp : Track.lastPoint (computeAccDistanceForEachTrackPoint d t) =
      (Track.getSerialized d t).getLast? :=
    lastPoint_eq_flatten_getLast? (computeAccDistanceForEachTrackPoint d t)
      htne hsegs2
  have hserne : Track.getSerialized d t ≠ [] := by
    intro hcon
    have h1 := serialized_length d t hsegs
    rw [hcon] at h1
    cases t with
    | nil => exact absurd rfl hne
    | cons seg rest =>
      have hsne := hsegs seg (by simp)
      cases hsegcase : seg with
      | nil => exact hsne hsegcase
      | cons x xs =>
        rw [List.flatten_cons, hsegcase] at h1
        simp at h1
  have hlt : (Track.getSerialized d t).length - 1 <
      (Track.getSerialized d t).length := by
    cases hser : Track.getSerialized d t with
    | nil => exact absurd hser hserne
    | cons x xs => simp
  have hsome : (Track.getSerialized d t)[(Track.getSerialized d t).length
      - 1]? = some (Track.getSerialized d t)[(Track.getSerialized d t).length
      - 1] := List.getElem?_eq_getElem hlt
  obtain ⟨v, hv⟩ := Option.isSome_iff_exists.mp
    (serialized_isSome d t hsegs _ (List.getElem_mem hlt))
  rw [totalDistance_of_lastPoint d _ _ v
    (by rw [hlp, List.getLast?_eq_getElem?, hsome]) hv, hsome]
  simp [hv]

/-- C2: over exact rational arithmetic, the lap distances returned by
getAutoLapsByDistance add up exactly to the reference track's totalDistance,
for every track meeting the parser contract and every positive split
distance. -/
theorem getAutoLapsByDistance_totalDistance_sum (d : GeoDist) (t : Track)
    (S : ℚ) (hS : 0 < S) (hne : t ≠ [])
    (hsegs : ∀ seg ∈ t, 2 ≤ seg.length) :
    ((LapExtractor.getAutoLapsByDistance S (Track.getSerialized d t)).map
      (fun lap => Track.totalDistance d lap.trackSegList)).sum =
      Track.totalDistance d (computeAccDistanceForEachTrackPoint d t) := by
  have hsegs' : ∀ seg ∈ t, seg ≠ [] := by
    intro seg hseg hcon
    have h2 := hsegs seg hseg
    rw [hcon] at h2
    simp at h2
  set pts := Track.getSerialized d t with hpts
  have hflen : 2 ≤ t.flatten.length := by
    cases t with
    | nil => exact absurd rfl hne
    | cons seg rest =>
      have h2 := hsegs seg (by simp)
      rw [List.flatten_cons, List.length_append]
      omega
  have hfne : t.flatten ≠ [] := by
    intro hcon
    rw [hcon] at hflen
    simp at hflen
  have hplen : 2 ≤ pts.length := by
    rw [hpts, serialized_length d t hsegs']
    exact hflen
  have hacc : ∀ p ∈ pts, p.accumulatedDistance.isSome :=
    serialized_isSome d t hsegs'
  obtain ⟨hne2, hlast2, hchain2, hhead2⟩ := autoDistOuter_spec pts S hS
    (pts.length + 1) 1 [0] (le_refl 1) (by omega) (by omega) (by simp)
    (by simp) (List.chain'_singleton 0)
  unfold LapExtractor.getAutoLapsByDistance
  set idxs := autoDistOuter pts S (pts.length + 1) 1 [0] with hidxs
  rw [split_map_totalDistance d pts idxs hchain2 hlast2 hacc hplen]
  cases hcase : idxs with
  | nil => exact absurd hcase hne2
  | cons x xs =>
    have hx0 : x = 0 := by
      rw [hcase] at hhead2
      simpa using hhead2
    subst hx0
    rw [List.tail_cons,
      telescope_zip (fun j =>
        (pts[j]?.bind TrackPoint.accumulatedDistance).getD 0) 0 xs]
    have hg0 : ((pts[0]?.bind TrackPoint.accumulatedDistance).getD 0 : ℚ)
        = 0 := by
      rw [hpts, serialized_head_zero d t hsegs' hfne]
      rfl
    have hgl : (0 :: xs).getLast (by simp) = pts.length - 1 := by
      rw [hcase] at hlast2
      rw [List.getLast?_eq_getLast (0 :: xs) (by simp)] at hlast2
      exact Option.some_inj.mp hlast2
    rw [hg0, hgl, totalDistance_computeAcc d t hne hsegs']
    rw [← hpts]
    ring

theorem getAutoLapsByDistance_totalDistance_sum_witness :
    ((LapExtractor.getAutoLapsByDistance 150
        (Track.getSerialized dLat trackGaps)).map
      (fun lap => Track.totalDistance dLat lap.trackSegList)).sum =
      Track.totalDistance dLat
        (computeAccDistanceForEachTrackPoint dLat trackGaps) :=
  getAutoLapsByDistance_totalDistance_sum dLat trackGaps 150 (by norm_num)
    (by simp [trackGaps])
    (by
      intro seg hseg
      simp only [trackGaps, List.mem_cons, List.not_mem_nil, or_false]
        at hseg
      subst hseg
      simp)
